import Mathlib

/-!
# Verification of the leitor_xml fiscal-document reader

Shallow embedding of `src/app.py` (a Streamlit application that extracts
records from Brazilian CT-e and NF-e fiscal XML documents, tabulates them
and joins the two tables on the invoice key), together with theorems that
settle the specification's claims.

Modelling conventions:
* Python floats are modelled as exact rationals (`ℚ`); the two-decimal
  money format's rounding is round-half-to-even, as CPython's `format`
  performs on the exact value.
* Python strings are Lean `String`s; character-level operations work on
  `String.data`.
* Code that can raise an exception is modelled with `Except PyErr`.
* XML trees are modelled by an inductive `Xml` type; namespace prefixes
  are dropped (both documents use a single fixed namespace), so tags are
  local names.
-/

namespace LeitorXml

/-- A Python exception, at the granularity the claims need. -/
inductive PyErr where
  | valueError
  | attributeError
deriving DecidableEq, Repr

/-! ## Character and digit utilities -/

/-- Value of a decimal digit character (Python `ord(c) - ord('0')`). -/
def charVal (c : Char) : ℕ := c.toNat - 48

/-- Reads a run of decimal digit characters as a natural number,
most significant digit first. -/
def parseDigits (l : List Char) : ℕ :=
  l.foldl (fun a c => 10 * a + charVal c) 0

/-- The character for a decimal digit. -/
def digitChar (d : ℕ) : Char := Nat.digitChar d

/-- Fuel-driven rendering of a natural number's decimal digits,
most significant first (empty for 0, like the recursion in CPython's
integer formatting). -/
def natDigitsAux : ℕ → ℕ → List Char
  | 0, _ => []
  | f + 1, n => if n = 0 then [] else natDigitsAux f (n / 10) ++ [digitChar (n % 10)]

/-- Decimal digit string of a natural number (`"0"` for 0). -/
def natDigitsStr (n : ℕ) : List Char :=
  if n = 0 then ['0'] else natDigitsAux (n + 1) n

/-- Inserts a `','` after every three characters of a reversed digit list:
the grouping step of Python's `{:,}` format, working from the right. -/
def group3Rev : List Char → List Char
  | a :: b :: c :: d :: r => a :: b :: c :: ',' :: group3Rev (d :: r)
  | l => l

/-- Groups a digit string into thousands with `','`, as Python's `{:,}`. -/
def pyGroup (l : List Char) : List Char := (group3Rev l.reverse).reverse

/-- The two fraction digits of a cent count `c < 100`. -/
def twoFrac (c : ℕ) : List Char := [digitChar (c / 10), digitChar (c % 10)]

/-- Round to the nearest integer, ties to even (CPython's rounding for
`format(v, '.2f')`, applied here to the exact value). -/
def roundHalfEven (q : ℚ) : ℤ :=
  let f := ⌊q⌋
  let r := q - f
  if r < 1 / 2 then f
  else if 1 / 2 < r then f + 1
  else if f % 2 = 0 then f else f + 1

/-- `f"{v:,.2f}"` given the already-rounded cent count `n`. -/
def formatCommaTwoOfCents (n : ℤ) : List Char :=
  (if n < 0 then ['-'] else []) ++
    pyGroup (natDigitsStr (n.natAbs / 100)) ++ '.' :: twoFrac (n.natAbs % 100)

/-- Python `f"{v:,.2f}"` on the exact value `v`. -/
def formatCommaTwo (v : ℚ) : List Char :=
  formatCommaTwoOfCents (roundHalfEven (100 * v))

/-- The exact numeric value displayed by the two-decimal format: `v`
rounded to two decimal places, ties to even. -/
def round2 (v : ℚ) : ℚ := roundHalfEven (100 * v) / 100

/-- Python `s.replace(a, b)` for one-character patterns. -/
def pyReplaceChar (a b : Char) (l : List Char) : List Char :=
  l.map fun c => if c = a then b else c

/-- Python `s.replace(a, "")` for a one-character pattern. -/
def pyRemoveChar (a : Char) (l : List Char) : List Char :=
  l.filter fun c => c ≠ a

/-- Python whitespace, as used by `str.strip()` and `float()`. -/
def isPySpace (c : Char) : Bool :=
  c == ' ' || c == '\t' || c == '\n' || c == '\r' || c == '\x0b' || c == '\x0c'

/-- Strip leading and trailing whitespace from a character list. -/
def stripWs (l : List Char) : List Char :=
  ((l.dropWhile fun c => isPySpace c).reverse.dropWhile fun c => isPySpace c).reverse

/-- Is `c` a decimal digit (the digits Python's number parsing accepts)? -/
def isDig (c : Char) : Bool :=
  decide (c ∈ ['0', '1', '2', '3', '4', '5', '6', '7', '8', '9'])

/-- Python `s.strip()`. -/
def pyStrip (s : String) : String := ⟨stripWs s.data⟩

/-! ## Python `float()` on decimal literals

Models `float(s)` for optionally signed plain decimal literals
(`digits`, `digits.digits`, `.digits`, `digits.`), with surrounding
whitespace allowed and anything else raising `ValueError`.  Exponent,
infinity and NaN forms never arise in this program's call sites and are
not modelled.  Values are exact rationals. -/

/-- The unsigned part of `float(s)`: digit run, optionally split by a
single decimal point (a split with no digit at all, or a second point,
is rejected). -/
def pyFloatUnsigned (l : List Char) : Except PyErr ℚ :=
  let ip := l.takeWhile fun c => c ≠ '.'
  let rest := l.dropWhile fun c => c ≠ '.'
  if rest = [] then
    if ip ≠ [] ∧ ip.all isDig then .ok (parseDigits ip)
    else .error .valueError
  else
    let fp := rest.drop 1
    if (ip ≠ [] ∨ fp ≠ []) ∧ ip.all isDig ∧ fp.all isDig ∧
        fp.all (fun c => c ≠ '.') then
      .ok ((parseDigits ip : ℚ) + (parseDigits fp : ℚ) / 10 ^ fp.length)
    else .error .valueError

/-- Python `float(s)` (see the section comment for scope): strip
whitespace, take an optional sign, parse the unsigned remainder. -/
def pyFloatParse (l : List Char) : Except PyErr ℚ :=
  let t := stripWs l
  if t.head? = some '-' then (pyFloatUnsigned (t.drop 1)).map Neg.neg
  else if t.head? = some '+' then pyFloatUnsigned (t.drop 1)
  else pyFloatUnsigned t

/-! ## The formatters of `src/app.py` -/

/-- `xml_float` (app.py line 17): `float(t.replace(",", ".")) if t else 0.0`
where `t` is an optional element text. -/
def xml_float (t : Option String) : Except PyErr ℚ :=
  match t with
  | none => .ok 0
  | some s => if s = "" then .ok 0 else pyFloatParse (pyReplaceChar ',' '.' s.data)

/-- The chain of `str.replace` calls in `br_money` / `br_weight`
(app.py line 22): `,` → `_`, then `.` → `,`, then `_` → `.`. -/
def brSwapChain (l : List Char) : List Char :=
  pyReplaceChar '_' '.' (pyReplaceChar '.' ',' (pyReplaceChar ',' '_' l))

/-- `br_money` restricted to a numeric argument (the branch after the
`isinstance` coercion): `f"{v:,.2f}"` with `.`/`,` swapped. -/
def br_money_num (v : ℚ) : String := ⟨brSwapChain (formatCommaTwo v)⟩

/-- The argument type of `br_money` (app.py annotates `float | str`). -/
inductive NumOrStr where
  | num (v : ℚ)
  | str (s : String)

/-- `br_money` (app.py lines 20–22): a string argument is first converted
with `float(v.replace(",", "."))`, which can raise. -/
def br_money (v : NumOrStr) : Except PyErr String :=
  match v with
  | .num q => .ok (br_money_num q)
  | .str s => (pyFloatParse (pyReplaceChar ',' '.' s.data)).map br_money_num

/-- `br_weight` (app.py lines 24–25): same formatting as `br_money`,
numeric argument only. -/
def br_weight (kg : ℚ) : String := br_money_num kg

/-- `str_to_float_br` (app.py lines 27–28):
`float(s.replace(".", "").replace(",", ".")) if s else 0.0`. -/
def str_to_float_br (s : String) : Except PyErr ℚ :=
  if s = "" then .ok 0
  else pyFloatParse (pyReplaceChar ',' '.' (pyRemoveChar '.' s.data))

/-- `frete_tipo` (app.py lines 30–33): dictionary lookup on the stripped
code, with default `code or "--"`. -/
def frete_tipo (code : String) : String :=
  let k := pyStrip code
  if k = "0" then "CIF (Emitente)"
  else if k = "1" then "FOB (Destinat.)"
  else if k = "2" then "Terceiros"
  else if k = "3" then "Sem frete"
  else if k = "4" then "Sem frete"
  else if k = "9" then "Sem frete"
  else if code = "" then "--" else code

/-- The key-normalisation step of `parse_nfe` (app.py line 100):
`inf.get("Id","").lstrip("NFe")`.  Python's `lstrip` takes a character
set, so it drops every leading character belonging to `{'N','F','e'}`. -/
def nfe_chave (id : String) : String :=
  ⟨id.data.dropWhile fun c => c = 'N' ∨ c = 'F' ∨ c = 'e'⟩

/-- Modelled from the spec (for comparison with `nfe_chave` only): the
claimed normalisation that removes a single literal leading `"NFe"`. -/
def specStripLiteralNFe (id : String) : String :=
  match id.data with
  | 'N' :: 'F' :: 'e' :: rest => ⟨rest⟩
  | _ => id

/-! ## XML trees and the lxml queries the program uses

An element has a tag (namespaces dropped: both document types live in a
single fixed namespace, so the `c:`/`n:` prefixes carry no information),
attributes, optional text and children.  `find`/`findall`/`findtext`
follow the ElementTree semantics for the path shapes that occur in
`src/app.py`: a relative child path `a/b` and a descendant path `.//a`
or `.//a/b`, in document order. -/

mutual

/-- An XML element (mutual with its child list, so that recursion over
documents is structural). -/
inductive Xml where
  | elem (tag : String) (attrs : List (String × String))
         (text : Option String) (children : XmlList)

/-- A list of sibling elements. -/
inductive XmlList where
  | nil
  | cons (x : Xml) (xs : XmlList)

end

/-- Converts a plain list of elements into an `XmlList`. -/
def xl : List Xml → XmlList
  | [] => .nil
  | x :: xs => .cons x (xl xs)

/-- Converts an `XmlList` back into a plain list. -/
def XmlList.toList : XmlList → List Xml
  | .nil => []
  | .cons x xs => x :: xs.toList

/-- The element's tag. -/
def Xml.tag : Xml → String
  | .elem t _ _ _ => t

/-- The element's attribute list. -/
def Xml.attrs : Xml → List (String × String)
  | .elem _ a _ _ => a

/-- The element's own text. -/
def Xml.text : Xml → Option String
  | .elem _ _ s _ => s

/-- The element's children, in document order. -/
def Xml.children : Xml → List Xml
  | .elem _ _ _ cs => cs.toList

mutual

/-- All proper descendants of an element, in document order (preorder). -/
def Xml.descendants : Xml → List Xml
  | .elem _ _ _ cs => cs.descList

/-- Preorder traversal of a sibling list: each element followed by its
own descendants. -/
def XmlList.descList : XmlList → List Xml
  | .nil => []
  | .cons x xs => x :: (x.descendants ++ xs.descList)

end

/-- `x.findall(".//t")`: every descendant tagged `t`, in document order. -/
def Xml.findAllDesc (x : Xml) (t : String) : List Xml :=
  x.descendants.filter fun e => e.tag = t

/-- `x.find(".//t")`: the first descendant tagged `t`, if any. -/
def Xml.findDesc (x : Xml) (t : String) : Option Xml :=
  (x.findAllDesc t).head?

/-- The children of `x` tagged `t`, in document order. -/
def Xml.childrenTag (x : Xml) (t : String) : List Xml :=
  x.children.filter fun e => e.tag = t

/-- `x.find("t")` for a single tag: the first child tagged `t`. -/
def Xml.childTag (x : Xml) (t : String) : Option Xml :=
  (x.childrenTag t).head?

/-- Resolves the remaining segments of an ElementTree path against a
candidate list, keeping document order. -/
def selPath (xs : List Xml) : List String → List Xml
  | [] => xs
  | t :: rest => selPath (xs.flatMap fun e => e.childrenTag t) rest

/-- `findtext` result: the matched element's text (`""` when the element
has no text), or the default when nothing matched. -/
def findtextOf (e : Option Xml) (d : String) : String :=
  match e with
  | none => d
  | some x => x.text.getD ""

/-- `x.findtext("a/b/…", d)`: first match of a relative child path. -/
def Xml.findtextPathD (x : Xml) (p : List String) (d : String) : String :=
  findtextOf (selPath [x] p).head? d

/-- `x.findtext(".//a/b/…", d)`: first match of a descendant path. -/
def Xml.findtextDescPathD (x : Xml) (p : List String) (d : String) : String :=
  match p with
  | [] => d
  | t :: rest => findtextOf (selPath (x.findAllDesc t) rest).head? d

/-- `x.get(k, d)`: attribute lookup with default. -/
def Xml.attrD (x : Xml) (k d : String) : String :=
  ((x.attrs.find? fun p => p.1 = k).map Prod.snd).getD d

/-! ## Dates

`datetime.fromisoformat` is a CPython library routine; it is modelled
here for the date portion `YYYY-MM-DD` (digits, dashes, ranges and leap
years checked as CPython does), requiring any remainder to be a `T` or
space separated time part whose digits are not further validated — the
program only ever formats the date fields of the result. -/

/-- A parsed date. -/
structure PyDate where
  year : ℕ
  month : ℕ
  day : ℕ
deriving DecidableEq, Repr

/-- Gregorian leap year. -/
def isLeap (y : ℕ) : Bool :=
  y % 4 = 0 && (y % 100 ≠ 0 || y % 400 = 0)

/-- Days in a month. -/
def daysInMonth (y m : ℕ) : ℕ :=
  if m = 2 then (if isLeap y then 29 else 28)
  else if m = 4 ∨ m = 6 ∨ m = 9 ∨ m = 11 then 30
  else 31

/-- Is this remainder an acceptable time part separator? -/
def isoRestOk : List Char → Bool
  | [] => true
  | 'T' :: _ => true
  | ' ' :: _ => true
  | _ => false

/-- `datetime.fromisoformat` (see the section comment for scope). -/
def fromisoformat (s : String) : Except PyErr PyDate :=
  match s.data with
  | y1 :: y2 :: y3 :: y4 :: '-' :: m1 :: m2 :: '-' :: d1 :: d2 :: rest =>
    if ([y1, y2, y3, y4, m1, m2, d1, d2].all isDig) ∧ isoRestOk rest then
      let y := parseDigits [y1, y2, y3, y4]
      let m := parseDigits [m1, m2]
      let d := parseDigits [d1, d2]
      if 1 ≤ y ∧ 1 ≤ m ∧ m ≤ 12 ∧ 1 ≤ d ∧ d ≤ daysInMonth y m then
        .ok ⟨y, m, d⟩
      else .error .valueError
    else .error .valueError
  | _ => .error .valueError

/-- Zero-padded two-digit field (`%d`, `%m`). -/
def pad2 (n : ℕ) : List Char :=
  if n < 10 then ['0', digitChar n] else natDigitsStr n

/-- Zero-padded four-digit year (`%Y`). -/
def pad4 (n : ℕ) : List Char :=
  if n < 10 then '0' :: '0' :: '0' :: [digitChar n]
  else if n < 100 then '0' :: '0' :: natDigitsStr n
  else if n < 1000 then '0' :: natDigitsStr n
  else natDigitsStr n

/-- `d.strftime("%d/%m/%Y")`. -/
def strftime_dmY (d : PyDate) : String :=
  ⟨pad2 d.day ++ '/' :: pad2 d.month ++ '/' :: pad4 d.year⟩

/-- `pd.to_datetime(data, format="%d/%m/%Y").strftime("%Y-%m")`, applied
in the source to the string `strftime_dmY` just produced: re-parsing
that string recovers the same date, so the composite is `"%Y-%m"` of the
date itself. -/
def strftime_Ym (d : PyDate) : String :=
  ⟨pad4 d.year ++ '-' :: pad2 d.month⟩

/-! ## The CT-e extractor (`parse_cte`, app.py lines 38–79)

The `etree.fromstring` call is abstracted as the `Option Xml` argument:
`none` models raw bytes on which the recovering parser still raises (the
`except Exception: return []` branch), `some root` a parsed tree. -/

/-- One output row of `parse_cte`. -/
structure CteRecord where
  data : String
  mesAno : String
  numeroCte : String
  emitente : String
  ufOrig : String
  ufDest : String
  cidadeDest : String
  frete : String
  peso : String
  rsTon : String
  chaveNF : String
  arquivo : String
deriving DecidableEq, Repr

/-- App.py line 51: `xml_float(inf.findtext(".//c:vTPrest", "0", NS_CTE))`. -/
def cte_frete (inf : Xml) : Except PyErr ℚ :=
  xml_float (some (inf.findtextDescPathD ["vTPrest"] "0"))

/-- Applies a fallible function to every list element, stopping at the
first exception (the evaluation of a Python comprehension). -/
def exceptMap (f : α → Except PyErr β) : List α → Except PyErr (List β)
  | [] => .ok []
  | a :: l =>
    match f a with
    | .error e => .error e
    | .ok b =>
      match exceptMap f l with
      | .error e => .error e
      | .ok bs => .ok (b :: bs)

/-- App.py line 52, inner comprehension: the weight figure of every
`qCarga` element anywhere in the document, in document order. -/
def ctePesoVals (root : Xml) : Except PyErr (List ℚ) :=
  exceptMap (fun n => xml_float n.text) (root.findAllDesc "qCarga")

/-- App.py line 52: `sum({xml_float(n.text) for n in root.findall(".//c:qCarga")})`
— a set comprehension, so identical figures are merged before summing. -/
def cte_peso (root : Xml) : Except PyErr ℚ :=
  match ctePesoVals root with
  | .error e => .error e
  | .ok vs => .ok vs.dedup.sum

/-- App.py lines 60–61: the referenced invoice keys, or `[""]` when the
list is empty (`or [""]`). -/
def cteKeys (root : Xml) : List String :=
  (root.findAllDesc "infNFe").map fun n => n.findtextPathD ["chave"] ""

/-- The key list `parse_cte` actually iterates over. -/
def cte_chaves (root : Xml) : List String :=
  if cteKeys root = [] then [""] else cteKeys root

/-- App.py line 75: `br_money(frete/(peso/1000)) if peso else ""`. -/
def cte_rs_ton (frete peso : ℚ) : String :=
  if peso = 0 then "" else br_money_num (frete / (peso / 1000))

/-- App.py lines 65–78: the row built for one invoice key. -/
def mkCteRow (root inf : Xml) (d : PyDate) (frete peso : ℚ)
    (chave fname : String) : CteRecord :=
  { data := strftime_dmY d
    mesAno := strftime_Ym d
    numeroCte := inf.findtextPathD ["ide", "nCT"] ""
    emitente := root.findtextDescPathD ["emit", "xNome"] ""
    ufOrig := root.findtextDescPathD ["enderEmit", "UF"] ""
    ufDest := root.findtextDescPathD ["dest", "enderDest", "UF"] ""
    cidadeDest := root.findtextDescPathD ["dest", "enderDest", "xMun"] ""
    frete := br_money_num frete
    peso := br_weight peso
    rsTon := cte_rs_ton frete peso
    chaveNF := chave
    arquivo := fname }

/-- `parse_cte` (app.py lines 38–79). -/
def parse_cte (parsed : Option Xml) (fname : String) :
    Except PyErr (List CteRecord) :=
  match parsed with
  | none => .ok []
  | some root =>
    match root.findDesc "infCte" with
    | none => .ok []
    | some inf =>
      match fromisoformat (inf.findtextPathD ["ide", "dhEmi"] "") with
      | .error e => .error e
      | .ok d =>
        match cte_frete inf with
        | .error e => .error e
        | .ok frete =>
          match cte_peso root with
          | .error e => .error e
          | .ok peso =>
            .ok ((cte_chaves root).map fun chave =>
              mkCteRow root inf d frete peso chave fname)

/-! ## The NF-e extractor (`parse_nfe`, app.py lines 82–116) -/

/-- One output record of `parse_nfe`. -/
structure NfeRecord where
  data : String
  numeroNF : String
  chaveNF : String
  emitenteNF : String
  destinatario : String
  valorNF : String
  icms : String
  transportadora : String
  cnpjTransp : String
  tipoFrete : String
  arquivo : String
deriving DecidableEq, Repr

/-- App.py lines 85–86: descend into a `nfeProc` wrapper.  Both the
`find` result and the fallback use lxml element truthiness, which is
"has children": a childless `NFe` element falls back to the root. -/
def nfe_root (rt : Xml) : Xml :=
  if rt.tag = "nfeProc" then
    match rt.findDesc "NFe" with
    | some e => if e.children.isEmpty then rt else e
    | none => rt
  else rt

/-- App.py line 97: `ide.findtext("n:dhEmi", "") or ide.findtext("n:dEmi", "")`. -/
def nfe_data_raw (ide : Xml) : String :=
  let a := ide.findtextPathD ["dhEmi"] ""
  if a = "" then ide.findtextPathD ["dEmi"] "" else a

/-- `parse_nfe` (app.py lines 82–116).  `.ok none` models `return None`;
`.error` models an uncaught exception (`AttributeError` when a `find`
returned `None` and a method is called on it, `ValueError` from date or
float parsing). -/
def parse_nfe (parsed : Option Xml) (fname : String) :
    Except PyErr (Option NfeRecord) :=
  match parsed with
  | none => .ok none
  | some rt0 =>
    let rt := nfe_root rt0
    match rt.findDesc "infNFe" with
    | none => .ok none
    | some inf =>
      match inf.childTag "ide" with
      | none => .error .attributeError
      | some ide =>
        match fromisoformat (nfe_data_raw ide) with
        | .error e => .error e
        | .ok d =>
          let chave := nfe_chave (inf.attrD "Id" "")
          let transp := inf.childTag "transp"
          let tnode := transp.bind fun t => t.childTag "transporta"
          match inf.childTag "emit" with
          | none => .error .attributeError
          | some emit =>
            match inf.childTag "dest" with
            | none => .error .attributeError
            | some dest =>
              match inf.findDesc "ICMSTot" with
              | none => .error .attributeError
              | some tot =>
                match xml_float (some (tot.findtextPathD ["vNF"] "0")) with
                | .error e => .error e
                | .ok vNF =>
                  match xml_float (some (tot.findtextPathD ["vICMS"] "0")) with
                  | .error e => .error e
                  | .ok vICMS =>
                    .ok (some
                      { data := strftime_dmY d
                        numeroNF := ide.findtextPathD ["nNF"] ""
                        chaveNF := chave
                        emitenteNF := emit.findtextPathD ["xNome"] ""
                        destinatario := dest.findtextPathD ["xNome"] ""
                        valorNF := br_money_num vNF
                        icms := br_money_num vICMS
                        transportadora :=
                          match tnode with
                          | some t => if t.children.isEmpty then ""
                                      else t.findtextPathD ["xNome"] ""
                          | none => ""
                        cnpjTransp :=
                          match tnode with
                          | some t => if t.children.isEmpty then ""
                                      else t.findtextPathD ["CNPJ"] ""
                          | none => ""
                        tipoFrete :=
                          match transp with
                          | some t => if t.children.isEmpty then ""
                                      else frete_tipo (t.findtextPathD ["modFrete"] "")
                          | none => ""
                        arquivo := fname })

/-! ## The archive loader (`load_files`, app.py lines 121–138)

The Streamlit uploader and the zip container format are outside the
program; an upload is modelled by its name, its raw bytes, and the
member list `zipfile.ZipFile` would produce from those bytes. -/

/-- Raw file content. -/
abbrev Bytes := List ℕ

/-- One user upload. -/
structure Upload where
  name : String
  content : Bytes
  asZip : List (String × Bytes)

/-- Python `str.lower()` (the names involved are ASCII). -/
def pyLower (s : String) : String := ⟨s.data.map Char.toLower⟩

/-- `f.name.lower().endswith(".xml")`. -/
def endsWithXml (n : String) : Bool :=
  (pyLower n).data.reverse.take 4 = ['l', 'm', 'x', '.']

/-- `load_files` (app.py lines 121–138): an upload named `*.xml` passes
through as one pair; any other upload is opened as a zip archive and
every member named `*.xml` is appended under its in-archive name. -/
def load_files (ups : List Upload) : List (String × Bytes) :=
  ups.flatMap fun f =>
    if endsWithXml f.name then [(f.name, f.content)]
    else f.asZip.filter fun m => endsWithXml m.1

/-! ## Tabulation and join (`tab_merge`, app.py lines 194–195)

A `DataFrame` built from a list of homogeneous dicts is a column list
plus one row per dict; `pd.merge(..., on=key, how="inner",
suffixes=(sufL, sufR))` pairs every left row with every right row whose
key cell is equal (string equality; a missing key never matches), keeps
the key column once, and renames every other column name present in
both tables by appending the side's suffix. -/

/-- A row: field name to display string, in column order. -/
abbrev Row := List (String × String)

/-- The cell of `r` at column `k`. -/
def rowGet (r : Row) (k : String) : Option String :=
  (r.find? fun p => p.1 = k).map Prod.snd

/-- A table. -/
structure Table where
  cols : List String
  rows : List Row

/-- Rename the colliding columns of one side's row. -/
def suffixRow (r : Row) (other : List String) (key suf : String) : Row :=
  r.map fun p => if p.1 ≠ key ∧ p.1 ∈ other then (p.1 ++ suf, p.2) else p

/-- The merged row for one matching pair. -/
def mergedRow (key sufL sufR : String) (lcols rcols : List String)
    (lr rr : Row) : Row :=
  suffixRow lr rcols key sufL ++
    (suffixRow rr lcols key sufR).filter fun p => p.1 ≠ key

/-- `pd.merge(t, u, on=key, how="inner", suffixes=(sufL, sufR))`. -/
def pd_merge_inner (t u : Table) (key sufL sufR : String) : Table :=
  { cols :=
      (t.cols.map fun n => if n ≠ key ∧ n ∈ u.cols then n ++ sufL else n) ++
        ((u.cols.filter fun n => n ≠ key).map
          fun n => if n ∈ t.cols then n ++ sufR else n)
    rows := t.rows.flatMap fun lr =>
      (u.rows.filter fun rr =>
          (rowGet lr key).isSome ∧ rowGet rr key = rowGet lr key).map
        fun rr => mergedRow key sufL sufR t.cols u.cols lr rr }

/-! ## Concrete example data (used by witnesses and counterexamples) -/

/-- Shorthand: a leaf element with text content. -/
def leaf (tag txt : String) : Xml := .elem tag [] (some txt) .nil

/-- Shorthand: an internal element. -/
def node (tag : String) (cs : List Xml) : Xml := .elem tag [] none (xl cs)

/-- A well-formed manifest-info element: emission date, manifest number,
issuer, destination, freight, two weight declarations and two referenced
invoice keys. -/
def exCteInf : Xml :=
  Xml.elem "infCte" [("Id", "CTe123")] none (xl
    [node "ide" [leaf "dhEmi" "2024-05-10T08:00:00-03:00", leaf "nCT" "4321"],
     node "emit" [leaf "xNome" "Transporte LTDA", node "enderEmit" [leaf "UF" "SP"]],
     node "dest" [node "enderDest" [leaf "UF" "MG", leaf "xMun" "Belo Horizonte"]],
     node "vPrest" [leaf "vTPrest" "1500.00"],
     node "infCarga" [node "infQ" [leaf "qCarga" "100.0"],
       node "infQ" [leaf "qCarga" "100.0"]],
     node "infDoc" [node "infNFe" [leaf "chave" "K1"],
       node "infNFe" [leaf "chave" "K2"]]])

/-- A well-formed manifest document referencing two invoice keys. -/
def exCte : Xml := node "cteProc" [node "CTe" [exCteInf]]

/-- A well-formed manifest-info element referencing no invoice key. -/
def exCteNoKeysInf : Xml :=
  node "infCte" [node "ide" [leaf "dhEmi" "2024-06-01T10:00:00-03:00"]]

/-- A well-formed manifest document referencing no invoice key. -/
def exCteNoKeys : Xml := node "cteProc" [exCteNoKeysInf]

/-- A manifest-info element with no children at all. -/
def exCteInfEmpty : Xml := node "infCte" []

/-- A structurally incomplete manifest: the manifest-info element is
present but the emission-date sub-element is missing. -/
def exCteNoDate : Xml := node "cteProc" [exCteInfEmpty]

/-- A document with two identical weight declarations of 100.0. -/
def exCteW1 : Xml :=
  node "CTe" [node "infQ" [leaf "qCarga" "100.0"], node "infQ" [leaf "qCarga" "100.0"]]

/-- A document with weight declarations of 100.0 and 50.0. -/
def exCteW2 : Xml :=
  node "CTe" [node "infQ" [leaf "qCarga" "100.0"], node "infQ" [leaf "qCarga" "50.0"]]

/-- A structurally incomplete invoice: the invoice-info element is
present but its `ide` sub-element is missing. -/
def exNfeNoIde : Xml := node "NFe" [node "infNFe" [node "emit" [leaf "xNome" "X"]]]

/-- A well-formed document that is neither a manifest nor an invoice. -/
def exPlainDoc : Xml := node "foo" []

/-- An archive upload holding two XML members and one non-XML member. -/
def exZipUpload : Upload :=
  ⟨"batch.zip", [0], [("a.xml", [1]), ("b.XML", [2]), ("notes.txt", [3])]⟩

/-- A plain XML upload. -/
def exXmlUpload : Upload := ⟨"doc.xml", [9], ([] : List (String × Bytes))⟩

/-- A manifest table with keys `A` and `B` and a colliding `Data` column. -/
def exCteTable : Table :=
  ⟨["Chave NF", "Data"],
   [[("Chave NF", "A"), ("Data", "01/01/2024")],
    [("Chave NF", "B"), ("Data", "02/01/2024")]]⟩

/-- An invoice table with keys `B` and `C` and a colliding `Data` column. -/
def exNfeTable : Table :=
  ⟨["Chave NF", "Data"],
   [[("Chave NF", "B"), ("Data", "03/01/2024")],
    [("Chave NF", "C"), ("Data", "04/01/2024")]]⟩

/-! # Theorems

First a toolbox of lemmas about the digit, grouping and parsing
utilities; then one theorem (plus witness or counterexample) per claim. -/

/-! ## Digit lemmas -/

lemma isDig_elim {c : Char} (h : isDig c = true) :
    c = '0' ∨ c = '1' ∨ c = '2' ∨ c = '3' ∨ c = '4' ∨
      c = '5' ∨ c = '6' ∨ c = '7' ∨ c = '8' ∨ c = '9' := by
  simpa [isDig] using h

lemma isDig_facts {c : Char} (h : isDig c = true) :
    c ≠ ',' ∧ c ≠ '.' ∧ c ≠ '_' ∧ c ≠ '-' ∧ c ≠ '+' ∧ isPySpace c = false := by
  rcases isDig_elim h with rfl | rfl | rfl | rfl | rfl | rfl | rfl | rfl | rfl | rfl <;>
    decide

lemma isDig_digitChar {d : ℕ} (h : d < 10) : isDig (digitChar d) = true := by
  interval_cases d <;> decide

lemma charVal_digitChar {d : ℕ} (h : d < 10) : charVal (digitChar d) = d := by
  interval_cases d <;> decide

lemma parseDigits_append_one (l : List Char) (c : Char) :
    parseDigits (l ++ [c]) = 10 * parseDigits l + charVal c := by
  simp [parseDigits, List.foldl_append]

lemma parseDigits_natDigitsAux :
    ∀ f n, n < 10 ^ f → parseDigits (natDigitsAux f n) = n := by
  intro f
  induction f with
  | zero =>
    intro n h
    have : n = 0 := by simpa using h
    subst this
    rfl
  | succ f ih =>
    intro n h
    by_cases h0 : n = 0
    · subst h0; rfl
    · have hrec : n / 10 < 10 ^ f := by
        rw [Nat.div_lt_iff_lt_mul (by norm_num)]
        calc n < 10 ^ (f + 1) := h
        _ = 10 ^ f * 10 := by ring
      rw [natDigitsAux, if_neg h0, parseDigits_append_one, ih _ hrec,
        charVal_digitChar (Nat.mod_lt _ (by norm_num))]
      omega

lemma natDigitsAux_digits :
    ∀ f n c, c ∈ natDigitsAux f n → isDig c = true := by
  intro f
  induction f with
  | zero => intro n c h; simp [natDigitsAux] at h
  | succ f ih =>
    intro n c h
    by_cases h0 : n = 0
    · simp [natDigitsAux, h0] at h
    · rw [natDigitsAux, if_neg h0] at h
      rcases List.mem_append.mp h with h' | h'
      · exact ih _ _ h'
      · have : c = digitChar (n % 10) := by simpa using h'
        subst this
        exact isDig_digitChar (Nat.mod_lt _ (by norm_num))

lemma parseDigits_natDigitsStr (n : ℕ) : parseDigits (natDigitsStr n) = n := by
  by_cases h0 : n = 0
  · subst h0; rfl
  · rw [natDigitsStr, if_neg h0]
    have h1 : n < 10 ^ n := Nat.lt_pow_self (by norm_num) n
    have h2 : (10 : ℕ) ^ n ≤ 10 ^ (n + 1) :=
      Nat.pow_le_pow_right (by norm_num) (Nat.le_succ n)
    exact parseDigits_natDigitsAux _ _ (lt_of_lt_of_le h1 h2)

lemma natDigitsStr_digits {n : ℕ} {c : Char} (h : c ∈ natDigitsStr n) :
    isDig c = true := by
  by_cases h0 : n = 0
  · subst h0
    have : c = '0' := by simpa [natDigitsStr] using h
    subst this; decide
  · rw [natDigitsStr, if_neg h0] at h
    exact natDigitsAux_digits _ _ _ h

lemma natDigitsStr_ne_nil (n : ℕ) : natDigitsStr n ≠ [] := by
  by_cases h0 : n = 0
  · subst h0; decide
  · rw [natDigitsStr, if_neg h0, natDigitsAux, if_neg h0]
    simp

/-! ## Grouping lemmas -/

lemma group3Rev_mem : ∀ {l : List Char} {c : Char},
    c ∈ group3Rev l → c ∈ l ∨ c = ',' := by
  intro l
  induction l using group3Rev.induct with
  | case1 a b c d r ih =>
    intro x hx
    rw [group3Rev] at hx
    simp only [List.mem_cons] at hx
    rcases hx with rfl | rfl | rfl | rfl | h
    · left; simp
    · left; simp
    · left; simp
    · right; rfl
    · rcases ih h with h' | h'
      · left; simp only [List.mem_cons] at h' ⊢; tauto
      · right; exact h'
  | case2 l h =>
    intro x hx
    rw [group3Rev] at hx
    · exact Or.inl hx
    · exact h

lemma group3Rev_filter : ∀ {l : List Char}, (∀ c ∈ l, c ≠ ',') →
    (group3Rev l).filter (fun c => c ≠ ',') = l := by
  intro l
  induction l using group3Rev.induct with
  | case1 a b c d r ih =>
    intro h
    rw [group3Rev]
    have ha : a ≠ ',' := h a (by simp)
    have hb : b ≠ ',' := h b (by simp)
    have hc : c ≠ ',' := h c (by simp)
    have hrest : ∀ x ∈ d :: r, x ≠ ',' := fun x hx => h x (by simp at hx ⊢; tauto)
    have ih' := ih hrest
    simp only [ne_eq, decide_not] at ih' ⊢
    simp [List.filter_cons, ha, hb, hc, ih']
  | case2 l h =>
    intro hl
    rw [group3Rev]
    · exact List.filter_eq_self.mpr (by intro a ha; simpa using hl a ha)
    · exact h

lemma pyGroup_mem {l : List Char} {c : Char} (h : c ∈ pyGroup l) :
    c ∈ l ∨ c = ',' := by
  rw [pyGroup, List.mem_reverse] at h
  rcases group3Rev_mem h with h' | h'
  · left; exact List.mem_reverse.mp h'
  · right; exact h'

lemma pyGroup_filter {l : List Char} (h : ∀ c ∈ l, c ≠ ',') :
    (pyGroup l).filter (fun c => c ≠ ',') = l := by
  rw [pyGroup, List.filter_reverse,
    group3Rev_filter (fun c hc => h c (List.mem_reverse.mp hc)),
    List.reverse_reverse]

/-! ## Whitespace and splitting lemmas -/

lemma dropWhile_isPySpace_of {l : List Char} (h : ∀ c ∈ l, isPySpace c = false) :
    l.dropWhile (fun c => isPySpace c) = l := by
  cases l with
  | nil => rfl
  | cons c t => simp [List.dropWhile_cons, h c (by simp)]

lemma stripWs_of {l : List Char} (h : ∀ c ∈ l, isPySpace c = false) :
    stripWs l = l := by
  rw [stripWs, dropWhile_isPySpace_of h,
    dropWhile_isPySpace_of (fun c hc => h c (List.mem_reverse.mp hc)),
    List.reverse_reverse]

lemma takeWhile_digits_dot (ip fp : List Char) (h : ∀ c ∈ ip, isDig c = true) :
    (ip ++ '.' :: fp).takeWhile (fun c => c ≠ '.') = ip ∧
      (ip ++ '.' :: fp).dropWhile (fun c => c ≠ '.') = '.' :: fp := by
  induction ip with
  | nil => simp [List.takeWhile_cons, List.dropWhile_cons]
  | cons c t ih =>
    have hc : c ≠ '.' := (isDig_facts (h c (by simp))).2.1
    have ih' := ih fun x hx => h x (by simp [hx])
    simp only [ne_eq, decide_not] at ih'
    simp [List.takeWhile_cons, List.dropWhile_cons, hc, ih'.1, ih'.2]

/-! ## Evaluating `float()` on digit strings -/

lemma pyFloatUnsigned_digitsDot (ip fp : List Char)
    (h1 : ∀ c ∈ ip, isDig c = true) (h2 : ∀ c ∈ fp, isDig c = true)
    (hne : ip ≠ [] ∨ fp ≠ []) :
    pyFloatUnsigned (ip ++ '.' :: fp) =
      .ok ((parseDigits ip : ℚ) + (parseDigits fp : ℚ) / 10 ^ fp.length) := by
  have ht := takeWhile_digits_dot ip fp h1
  rw [pyFloatUnsigned]
  simp only [ht.1, ht.2]
  rw [if_neg (by simp), if_pos]
  · simp
  · refine ⟨hne, ?_, ?_, ?_⟩
    · exact List.all_eq_true.mpr h1
    · simpa using fun c hc => h2 c hc
    · simp only [List.drop_one, List.tail_cons]
      exact List.all_eq_true.mpr fun c hc => by
        simpa using (isDig_facts (h2 c hc)).2.1

lemma isPySpace_of_dig {c : Char} (h : isDig c = true) : isPySpace c = false :=
  (isDig_facts h).2.2.2.2.2

lemma pyFloatParse_pos (ip fp : List Char)
    (h1 : ∀ c ∈ ip, isDig c = true) (h2 : ∀ c ∈ fp, isDig c = true)
    (hip : ip ≠ []) :
    pyFloatParse (ip ++ '.' :: fp) =
      .ok ((parseDigits ip : ℚ) + (parseDigits fp : ℚ) / 10 ^ fp.length) := by
  have hsp : ∀ c ∈ ip ++ '.' :: fp, isPySpace c = false := by
    intro c hc
    rcases List.mem_append.mp hc with h | h
    · exact isPySpace_of_dig (h1 c h)
    · rcases List.mem_cons.mp h with rfl | h
      · decide
      · exact isPySpace_of_dig (h2 c h)
  obtain ⟨d, t, rfl⟩ : ∃ d t, ip = d :: t := by
    cases ip with
    | nil => exact absurd rfl hip
    | cons d t => exact ⟨d, t, rfl⟩
  have hd := isDig_facts (h1 d (by simp))
  rw [pyFloatParse]
  simp only [stripWs_of hsp]
  rw [if_neg (by simp [hd.2.2.2.1]), if_neg (by simp [hd.2.2.2.2.1])]
  exact pyFloatUnsigned_digitsDot _ _ h1 h2 (Or.inl hip)

lemma pyFloatParse_neg (ip fp : List Char)
    (h1 : ∀ c ∈ ip, isDig c = true) (h2 : ∀ c ∈ fp, isDig c = true)
    (hip : ip ≠ []) :
    pyFloatParse ('-' :: (ip ++ '.' :: fp)) =
      .ok (-((parseDigits ip : ℚ) + (parseDigits fp : ℚ) / 10 ^ fp.length)) := by
  have hsp : ∀ c ∈ '-' :: (ip ++ '.' :: fp), isPySpace c = false := by
    intro c hc
    rcases List.mem_cons.mp hc with rfl | hc
    · decide
    · rcases List.mem_append.mp hc with h | h
      · exact isPySpace_of_dig (h1 c h)
      · rcases List.mem_cons.mp h with rfl | h
        · decide
        · exact isPySpace_of_dig (h2 c h)
  rw [pyFloatParse]
  simp only [stripWs_of hsp]
  rw [if_pos (by simp)]
  simp only [List.drop_one, List.tail_cons]
  rw [pyFloatUnsigned_digitsDot _ _ h1 h2 (Or.inl hip)]
  rfl

/-! ## The replace chain and the shape of the formatted string -/

lemma brSwap_remove_comma : ∀ {l : List Char}, (∀ c ∈ l, c ≠ '_') →
    pyReplaceChar ',' '.' (pyRemoveChar '.' (brSwapChain l)) =
      l.filter (fun c => c ≠ ',') := by
  intro l
  induction l with
  | nil => intro _; rfl
  | cons c t ih =>
    intro h
    have hc : c ≠ '_' := h c (by simp)
    have ht := ih fun x hx => h x (by simp [hx])
    by_cases h1 : c = ','
    · subst h1
      simpa [brSwapChain, pyReplaceChar, pyRemoveChar, List.filter_cons] using ht
    · by_cases h2 : c = '.'
      · subst h2
        simpa [brSwapChain, pyReplaceChar, pyRemoveChar, List.filter_cons] using ht
      · simpa [brSwapChain, pyReplaceChar, pyRemoveChar, List.filter_cons,
          h1, h2, hc] using ht

lemma twoFrac_digits {m : ℕ} {c : Char} (h : c ∈ twoFrac m) (hm : m < 100) :
    isDig c = true := by
  rcases List.mem_cons.mp h with rfl | h
  · exact isDig_digitChar (by omega)
  · have : c = digitChar (m % 10) := by simpa using h
    subst this
    exact isDig_digitChar (Nat.mod_lt _ (by norm_num))

lemma parseDigits_twoFrac {m : ℕ} (hm : m < 100) :
    parseDigits (twoFrac m) = m := by
  have h1 : m / 10 < 10 := by omega
  have h2 : m % 10 < 10 := Nat.mod_lt _ (by norm_num)
  simp [twoFrac, parseDigits, charVal_digitChar h1, charVal_digitChar h2]
  omega

lemma mem_formatCommaTwoOfCents {n : ℤ} {c : Char}
    (h : c ∈ formatCommaTwoOfCents n) :
    isDig c = true ∨ c = '-' ∨ c = ',' ∨ c = '.' := by
  rw [formatCommaTwoOfCents] at h
  rcases List.mem_append.mp h with h | h
  · rcases List.mem_append.mp h with h | h
    · split at h
      · have : c = '-' := by simpa using h
        tauto
      · simp at h
    · rcases pyGroup_mem h with h | h
      · exact Or.inl (natDigitsStr_digits h)
      · tauto
  · rcases List.mem_cons.mp h with rfl | h
    · tauto
    · exact Or.inl (twoFrac_digits h (Nat.mod_lt _ (by norm_num)))

lemma filter_comma_formatCommaTwoOfCents (n : ℤ) :
    (formatCommaTwoOfCents n).filter (fun c => c ≠ ',') =
      (if n < 0 then ['-'] else []) ++
        natDigitsStr (n.natAbs / 100) ++ '.' :: twoFrac (n.natAbs % 100) := by
  rw [formatCommaTwoOfCents, List.filter_append, List.filter_append]
  have hg : (pyGroup (natDigitsStr (n.natAbs / 100))).filter (fun c => c ≠ ',') =
      natDigitsStr (n.natAbs / 100) :=
    pyGroup_filter fun c hc => (isDig_facts (natDigitsStr_digits hc)).1
  have hlast : ('.' :: twoFrac (n.natAbs % 100)).filter (fun c => c ≠ ',') =
      '.' :: twoFrac (n.natAbs % 100) :=
    List.filter_eq_self.mpr (by
      intro a ha
      rcases List.mem_cons.mp ha with rfl | ha
      · simp
      · simpa using (isDig_facts (twoFrac_digits ha (Nat.mod_lt _ (by norm_num)))).1)
  have hsign : ((if n < 0 then ['-'] else []) : List Char).filter
      (fun c => c ≠ ',') = (if n < 0 then ['-'] else []) := by
    split <;> simp
  rw [hg, hlast, hsign]

lemma formatCommaTwoOfCents_ne_nil (n : ℤ) : formatCommaTwoOfCents n ≠ [] := by
  rw [formatCommaTwoOfCents]
  intro hcon
  have := congrArg List.length hcon
  simp [List.length_append] at this

/-! ## The rounding step -/

lemma abs_sub_roundHalfEven (q : ℚ) : |q - roundHalfEven q| ≤ 1 / 2 := by
  have h0 : (0 : ℚ) ≤ q - ⌊q⌋ := by
    have := Int.floor_le q
    linarith
  have h1 : q - ⌊q⌋ < 1 := by
    have := Int.lt_floor_add_one q
    linarith
  simp only [roundHalfEven]
  split_ifs with ha hb hc
  · rw [abs_of_nonneg h0]; linarith
  · push_cast
    rw [abs_of_nonpos (by linarith)]
    linarith
  · rw [abs_of_nonneg h0]; linarith
  · push_cast
    rw [abs_of_nonpos (by linarith)]
    linarith

/-! ## Claim theorems: the money formatter (C8) and the
formatting/parsing round trip (C10) -/

/-- C8: the money formatter produces thousands-dot, decimal-comma,
two-fraction-digit text from either a number or a comma-decimal string:
`br_money(1234.5)` is `"1.234,50"` and `br_money("1234,50")` is
`"1.234,50"`. -/
theorem br_money_examples :
    br_money (NumOrStr.num (1234.5 : ℚ)) = .ok "1.234,50" ∧
      br_money (NumOrStr.str "1234,50") = .ok "1.234,50" := by
  have hfmt : br_money_num (1234.5 : ℚ) = "1.234,50" := by
    unfold br_money_num formatCommaTwo
    norm_num [roundHalfEven]
    decide
  constructor
  · rw [br_money, hfmt]
  · rw [br_money]
    have h1 : pyReplaceChar ',' '.' "1234,50".data = "1234.50".data := by decide
    have h2 : ("1234.50".data : List Char) =
        ['1', '2', '3', '4'] ++ '.' :: ['5', '0'] := by decide
    rw [h1, h2, pyFloatParse_pos _ _ (by decide) (by decide) (by decide)]
    have h3 : ((parseDigits ['1', '2', '3', '4'] : ℚ) +
        (parseDigits ['5', '0'] : ℚ) / 10 ^ (['5', '0'] : List Char).length) =
        (1234.5 : ℚ) := by
      rw [show parseDigits ['1', '2', '3', '4'] = 1234 from by decide,
        show parseDigits ['5', '0'] = 50 from by decide]
      norm_num
    rw [h3]
    rw [show Except.map br_money_num (Except.ok (1234.5 : ℚ)) =
      Except.ok (br_money_num (1234.5 : ℚ)) from rfl, hfmt]

/-- C10: formatting a number with the money formatter and re-parsing the
result with the locale-aware full parser recovers exactly the displayed
value, namely the number rounded to two decimal places (ties to even);
that rounded value is within half a cent of the original. -/
theorem money_round_trip (v : ℚ) :
    br_money (NumOrStr.num v) = .ok (br_money_num v) ∧
      str_to_float_br (br_money_num v) = .ok (round2 v) ∧
      |v - round2 v| ≤ 1 / 200 := by
  refine ⟨rfl, ?_, ?_⟩
  · set n := roundHalfEven (100 * v) with hn
    have hS : formatCommaTwo v = formatCommaTwoOfCents n := rfl
    have hne : brSwapChain (formatCommaTwo v) ≠ [] := by
      rw [hS, brSwapChain]
      simp only [pyReplaceChar, ne_eq, List.map_eq_nil_iff]
      exact formatCommaTwoOfCents_ne_nil n
    rw [str_to_float_br, if_neg ?hs]
    case hs =>
      intro hcon
      apply hne
      have : (br_money_num v).data = ("" : String).data := by rw [hcon]
      simpa [br_money_num] using this
    have hdata : (br_money_num v).data = brSwapChain (formatCommaTwoOfCents n) := rfl
    rw [hdata]
    have hnou : ∀ c ∈ formatCommaTwoOfCents n, c ≠ '_' := by
      intro c hc
      rcases mem_formatCommaTwoOfCents hc with h | h | h | h
      · exact (isDig_facts h).2.2.1
      · subst h; decide
      · subst h; decide
      · subst h; decide
    rw [brSwap_remove_comma hnou, filter_comma_formatCommaTwoOfCents]
    set m := n.natAbs with hm
    have hD : ∀ c ∈ natDigitsStr (m / 100), isDig c = true :=
      fun c hc => natDigitsStr_digits hc
    have hF : ∀ c ∈ twoFrac (m % 100), isDig c = true :=
      fun c hc => twoFrac_digits hc (Nat.mod_lt _ (by norm_num))
    have hipne := natDigitsStr_ne_nil (m / 100)
    have hval : ((parseDigits (natDigitsStr (m / 100)) : ℚ) +
        (parseDigits (twoFrac (m % 100)) : ℚ) / 10 ^ (twoFrac (m % 100)).length) =
        (m : ℚ) / 100 := by
      rw [parseDigits_natDigitsStr, parseDigits_twoFrac (Nat.mod_lt _ (by norm_num)),
        show (twoFrac (m % 100)).length = 2 from rfl]
      have hdm : (100 : ℚ) * ((m / 100 : ℕ) : ℚ) + ((m % 100 : ℕ) : ℚ) = (m : ℚ) := by
        exact_mod_cast Nat.div_add_mod m 100
      field_simp
      linarith
    have hround : round2 v = (n : ℚ) / 100 := by rw [round2, ← hn]
    by_cases hneg : n < 0
    · rw [if_pos hneg,
        show (['-'] ++ natDigitsStr (m / 100)) ++ '.' :: twoFrac (m % 100) =
          '-' :: (natDigitsStr (m / 100) ++ '.' :: twoFrac (m % 100)) from by simp,
        pyFloatParse_neg _ _ hD hF hipne, hval]
      congr 1
      have hcast : ((m : ℚ)) = -(n : ℚ) := by
        rw [hm, Int.cast_natAbs, abs_of_neg hneg]
        push_cast
        ring
      rw [hround, hcast]
      ring
    · rw [if_neg hneg, List.nil_append, pyFloatParse_pos _ _ hD hF hipne, hval]
      congr 1
      have hcast : ((m : ℚ)) = (n : ℚ) := by
        rw [hm, Int.cast_natAbs, abs_of_nonneg (not_lt.mp hneg)]
      rw [hround, hcast]
  · have h := abs_sub_roundHalfEven (100 * v)
    rw [round2]
    have h200 : v - (roundHalfEven (100 * v) : ℚ) / 100 =
        (100 * v - roundHalfEven (100 * v)) / 100 := by ring
    rw [h200, abs_div, abs_of_pos (show (0 : ℚ) < 100 by norm_num)]
    linarith

/-! ## Claim C9: the freight-term formatter -/

/-- C9 counterexample: the claim maps codes through the fixed table and
returns any unrecognized non-empty code verbatim; but the code `" 1 "`
is not a key of the table, is non-empty, and is *not* returned verbatim
— the source strips whitespace before the lookup. -/
theorem frete_tipo_strip_counter :
    (" 1 " : String) ∉ (["0", "1", "2", "3", "4", "9"] : List String) ∧
      frete_tipo " 1 " = "FOB (Destinat.)" ∧ frete_tipo " 1 " ≠ " 1 " := by
  decide

/-- C9 (amended): the table lookup happens on the whitespace-stripped
code; a code whose stripped form is not a table key is returned verbatim
when non-empty, and an empty code yields `"--"`; in particular
`frete_tipo "1" = "FOB (Destinat.)"`, `frete_tipo "" = "--"`,
`frete_tipo "7" = "7"`, `frete_tipo " 1 " = "FOB (Destinat.)"` and
`frete_tipo " " = " "`. -/
theorem frete_tipo_spec :
    (∀ code : String,
        pyStrip code ∉ (["0", "1", "2", "3", "4", "9"] : List String) →
          code ≠ "" → frete_tipo code = code) ∧
      frete_tipo "1" = "FOB (Destinat.)" ∧ frete_tipo "" = "--" ∧
      frete_tipo "7" = "7" ∧ frete_tipo " 1 " = "FOB (Destinat.)" ∧
      frete_tipo " " = " " := by
  refine ⟨?_, by decide, by decide, by decide, by decide, by decide⟩
  intro code h hne
  simp only [List.mem_cons, List.mem_singleton, not_or] at h
  obtain ⟨h0, h1, h2, h3, h4, h9, -⟩ := h
  simp only [frete_tipo]
  rw [if_neg h0, if_neg h1, if_neg h2, if_neg h3, if_neg h4, if_neg h9, if_neg hne]

/-- C9 witness: the amended general clause applied at the concrete
unrecognized code `"7"`. -/
theorem frete_tipo_spec_witness : frete_tipo "7" = "7" :=
  frete_tipo_spec.1 "7" (by decide) (by decide)

/-! ## Claim C2: the NF-e key normalisation -/

/-- C2 counterexample: the claim says only a literal leading `"NFe"` is
removed and nothing more; on the identifier `"NFeNFe123"` the code
removes both occurrences (Python's `lstrip` strips a character set), so
the extracted key differs from the claimed one. -/
theorem nfe_chave_counter :
    nfe_chave "NFeNFe123" = "123" ∧
      specStripLiteralNFe "NFeNFe123" = "NFe123" ∧
      nfe_chave "NFeNFe123" ≠ specStripLiteralNFe "NFeNFe123" := by
  decide

lemma dropWhile_first_not {α : Type} {p : α → Bool} :
    ∀ {l : List α} {c : α}, c ∈ (l.dropWhile p).take 1 → p c = false := by
  intro l
  induction l with
  | nil => simp
  | cons a t ih =>
    intro c hc
    rw [List.dropWhile_cons] at hc
    by_cases hp : p a
    · rw [if_pos hp] at hc
      exact ih hc
    · rw [if_neg hp] at hc
      have : c = a := by simpa using hc
      subst this
      simpa using hp

/-- C2 (amended): the extracted key is the invoice-info identifier with
*every* leading character belonging to the set `{'N','F','e'}` removed
(Python `lstrip` semantics): the identifier splits as a prefix of such
characters followed by the key, whose first character (if any) is not in
the set.  On a well-formed identifier — `"NFe"` followed by digits —
this agrees with stripping the single literal prefix. -/
theorem nfe_chave_lstrip :
    (∀ id : String, ∃ p : List Char,
        id.data = p ++ (nfe_chave id).data ∧
        (∀ c ∈ p, c = 'N' ∨ c = 'F' ∨ c = 'e') ∧
        (∀ c ∈ (nfe_chave id).data.take 1, ¬(c = 'N' ∨ c = 'F' ∨ c = 'e'))) ∧
      nfe_chave "NFe35240512345678901234550010000011111000011111" =
        "35240512345678901234550010000011111000011111" := by
  refine ⟨?_, by decide⟩
  intro id
  refine ⟨id.data.takeWhile fun c => c = 'N' ∨ c = 'F' ∨ c = 'e', ?_, ?_, ?_⟩
  · exact (List.takeWhile_append_dropWhile _ _).symm
  · intro c hc
    have := List.mem_takeWhile_imp hc
    simpa using this
  · intro c hc
    have hc' : c ∈ (id.data.dropWhile fun c =>
        c = 'N' ∨ c = 'F' ∨ c = 'e').take 1 := hc
    have := dropWhile_first_not hc'
    simpa using this

/-- C2 witness: the amended characterization applied at the concrete
identifier `"NFe123"`. -/
theorem nfe_chave_lstrip_witness :
    ∃ p : List Char,
      ("NFe123" : String).data = p ++ (nfe_chave "NFe123").data ∧
      (∀ c ∈ p, c = 'N' ∨ c = 'F' ∨ c = 'e') ∧
      (∀ c ∈ (nfe_chave "NFe123").data.take 1,
        ¬(c = 'N' ∨ c = 'F' ∨ c = 'e')) :=
  nfe_chave_lstrip.1 "NFe123"

/-! ## Evaluation helpers for the extractors -/

lemma takeWhile_all_ne_dot {l : List Char} (h : ∀ c ∈ l, isDig c = true) :
    l.takeWhile (fun c => c ≠ '.') = l ∧ l.dropWhile (fun c => c ≠ '.') = [] := by
  induction l with
  | nil => simp
  | cons a t ih =>
    have ha : a ≠ '.' := (isDig_facts (h a (by simp))).2.1
    have iht := ih fun c hc => h c (by simp [hc])
    constructor
    · rw [List.takeWhile_cons, if_pos (by simpa using ha), iht.1]
    · rw [List.dropWhile_cons, if_pos (by simpa using ha), iht.2]

lemma pyFloatUnsigned_digits (ip : List Char)
    (h1 : ∀ c ∈ ip, isDig c = true) (hip : ip ≠ []) :
    pyFloatUnsigned ip = .ok (parseDigits ip) := by
  have ht := takeWhile_all_ne_dot h1
  rw [pyFloatUnsigned]
  simp only [ht.1, ht.2]
  rw [if_pos trivial, if_pos ⟨hip, List.all_eq_true.mpr h1⟩]

lemma pyFloatParse_digits (ip : List Char)
    (h1 : ∀ c ∈ ip, isDig c = true) (hip : ip ≠ []) :
    pyFloatParse ip = .ok (parseDigits ip) := by
  have hsp : ∀ c ∈ ip, isPySpace c = false := fun c hc => isPySpace_of_dig (h1 c hc)
  obtain ⟨d, t, rfl⟩ : ∃ d t, ip = d :: t := by
    cases ip with
    | nil => exact absurd rfl hip
    | cons d t => exact ⟨d, t, rfl⟩
  have hd := isDig_facts (h1 d (by simp))
  rw [pyFloatParse]
  simp only [stripWs_of hsp]
  rw [if_neg (by simp [hd.2.2.2.1]), if_neg (by simp [hd.2.2.2.2.1])]
  exact pyFloatUnsigned_digits _ h1 hip

lemma xml_float_eval_dot (s : String) (ip fp : List Char) (a b : ℕ) (q : ℚ)
    (hrep : pyReplaceChar ',' '.' s.data = ip ++ '.' :: fp)
    (h1 : ∀ c ∈ ip, isDig c = true) (h2 : ∀ c ∈ fp, isDig c = true)
    (hip : ip ≠ []) (hs : s ≠ "")
    (ha : parseDigits ip = a) (hb : parseDigits fp = b)
    (hq : (a : ℚ) + (b : ℚ) / 10 ^ fp.length = q) :
    xml_float (some s) = .ok q := by
  simp only [xml_float]
  rw [if_neg hs, hrep, pyFloatParse_pos _ _ h1 h2 hip, ha, hb, hq]

lemma xml_float_eval_int (s : String) (ip : List Char) (a : ℕ) (q : ℚ)
    (hrep : pyReplaceChar ',' '.' s.data = ip)
    (h1 : ∀ c ∈ ip, isDig c = true) (hip : ip ≠ []) (hs : s ≠ "")
    (ha : parseDigits ip = a) (hq : (a : ℚ) = q) :
    xml_float (some s) = .ok q := by
  simp only [xml_float]
  rw [if_neg hs, hrep, pyFloatParse_digits _ h1 hip, ha, hq]

lemma parse_cte_ok (root inf : Xml) (fname : String) (d : PyDate)
    (frete peso : ℚ)
    (hinf : root.findDesc "infCte" = some inf)
    (hd : fromisoformat (inf.findtextPathD ["ide", "dhEmi"] "") = .ok d)
    (hf : cte_frete inf = .ok frete)
    (hp : cte_peso root = .ok peso) :
    parse_cte (some root) fname =
      .ok ((cte_chaves root).map fun chave =>
        mkCteRow root inf d frete peso chave fname) := by
  simp only [parse_cte, hinf, hd, hf, hp]

lemma parse_cte_ok_inv (root inf : Xml) (fname : String)
    (recs : List CteRecord)
    (hinf : root.findDesc "infCte" = some inf)
    (h : parse_cte (some root) fname = .ok recs) :
    ∃ d frete peso,
      fromisoformat (inf.findtextPathD ["ide", "dhEmi"] "") = .ok d ∧
      cte_frete inf = .ok frete ∧ cte_peso root = .ok peso ∧
      recs = (cte_chaves root).map fun chave =>
        mkCteRow root inf d frete peso chave fname := by
  simp only [parse_cte, hinf] at h
  rcases hd : fromisoformat (inf.findtextPathD ["ide", "dhEmi"] "") with e | d
  · rw [hd] at h; simp at h
  · rw [hd] at h
    rcases hf : cte_frete inf with e | frete
    · rw [hf] at h; simp at h
    · rw [hf] at h
      rcases hp : cte_peso root with e | peso
      · rw [hp] at h; simp at h
      · rw [hp] at h
        refine ⟨d, frete, peso, rfl, rfl, rfl, ?_⟩
        simpa using h.symm

lemma dedup_sum_toFinset (l : List ℚ) :
    l.dedup.sum = ∑ x ∈ l.toFinset, x := by
  induction l with
  | nil => simp
  | cons a t ih =>
    by_cases h : a ∈ t
    · rw [List.dedup_cons_of_mem h, List.toFinset_cons,
        Finset.insert_eq_self.mpr (List.mem_toFinset.mpr h)]
      exact ih
    · rw [List.dedup_cons_of_not_mem h, List.toFinset_cons, List.sum_cons,
        Finset.sum_insert (by simpa using h), ih]

lemma mkCteRow_chave (root inf : Xml) (d : PyDate) (frete peso : ℚ)
    (c k fname : String) :
    { mkCteRow root inf d frete peso c fname with chaveNF := k } =
      mkCteRow root inf d frete peso k fname := rfl

/-! ## Evaluating the example documents -/

lemma xml_float_100 : xml_float (some "100.0") = .ok 100 :=
  xml_float_eval_dot _ ['1', '0', '0'] ['0'] 100 0 _ (by decide) (by decide)
    (by decide) (by decide) (by decide) (by decide) (by decide) (by norm_num)

lemma xml_float_50 : xml_float (some "50.0") = .ok 50 :=
  xml_float_eval_dot _ ['5', '0'] ['0'] 50 0 _ (by decide) (by decide)
    (by decide) (by decide) (by decide) (by decide) (by decide) (by norm_num)

lemma exCte_frete : cte_frete exCteInf = .ok 1500 := by
  rw [cte_frete,
    show exCteInf.findtextDescPathD ["vTPrest"] "0" = "1500.00" from by decide]
  exact xml_float_eval_dot _ ['1', '5', '0', '0'] ['0', '0'] 1500 0 _ (by decide)
    (by decide) (by decide) (by decide) (by decide) (by decide) (by decide)
    (by norm_num)

lemma exCte_pesoVals : ctePesoVals exCte = .ok [100, 100] := by
  rw [ctePesoVals,
    show Xml.findAllDesc exCte "qCarga" =
      [leaf "qCarga" "100.0", leaf "qCarga" "100.0"] from rfl]
  simp only [exceptMap, show (leaf "qCarga" "100.0").text = some "100.0" from rfl,
    xml_float_100]

lemma dedup_100_100 : ([100, 100] : List ℚ).dedup = [100] := by
  rw [List.dedup_cons_of_mem (by norm_num), List.dedup_cons_of_not_mem (by simp),
    List.dedup_nil]

lemma exCte_peso : cte_peso exCte = .ok 100 := by
  simp only [cte_peso, exCte_pesoVals, dedup_100_100]
  norm_num

lemma exCte_date :
    fromisoformat (exCteInf.findtextPathD ["ide", "dhEmi"] "") =
      .ok ⟨2024, 5, 10⟩ := rfl

/-! ## Claim C1: the silent-skip error policy -/

/-- C1 counterexample: a structurally incomplete manifest — the
manifest-info element is present but the emission-date sub-element is
missing — makes the CT-e extractor raise (`datetime.fromisoformat("")`
is a `ValueError`) instead of returning the empty list the claim
promises. -/
theorem cte_missing_date_raises :
    parse_cte (some exCteNoDate) "a.xml" = .error PyErr.valueError ∧
      ¬ parse_cte (some exCteNoDate) "a.xml" = .ok [] := by
  have h : parse_cte (some exCteNoDate) "a.xml" = .error PyErr.valueError := by
    have h1 : exCteNoDate.findDesc "infCte" = some exCteInfEmpty := rfl
    have h2 : fromisoformat (exCteInfEmpty.findtextPathD ["ide", "dhEmi"] "") =
        .error PyErr.valueError := rfl
    simp only [parse_cte, h1, h2]
  exact ⟨h, by rw [h]; simp⟩

/-- C1 (amended): unparseable input yields an empty result from both
extractors without raising, and so does a parsed document lacking the
manifest-info (resp. invoice-info) element; but a document that contains
the info element while missing a required sub-element can raise — the
CT-e extractor raises a `ValueError` when the emission date is missing,
and the NF-e extractor an `AttributeError` when the `ide` sub-element is
missing. -/
theorem silent_skip_scope :
    (∀ fname, parse_cte none fname = .ok []) ∧
    (∀ fname, parse_nfe none fname = .ok none) ∧
    (∀ root fname, root.findDesc "infCte" = none →
        parse_cte (some root) fname = .ok []) ∧
    (∀ root fname, (nfe_root root).findDesc "infNFe" = none →
        parse_nfe (some root) fname = .ok none) ∧
    parse_cte (some exCteNoDate) "b.xml" = .error PyErr.valueError ∧
    parse_nfe (some exNfeNoIde) "c.xml" = .error PyErr.attributeError := by
  refine ⟨fun _ => rfl, fun _ => rfl, ?_, ?_, ?_, ?_⟩
  · intro root fname h
    simp only [parse_cte, h]
  · intro root fname h
    simp only [parse_nfe, h]
  · have h1 : exCteNoDate.findDesc "infCte" = some exCteInfEmpty := rfl
    have h2 : fromisoformat (exCteInfEmpty.findtextPathD ["ide", "dhEmi"] "") =
        .error PyErr.valueError := rfl
    simp only [parse_cte, h1, h2]
  · have h1 : (nfe_root exNfeNoIde).findDesc "infNFe" =
        some (node "infNFe" [node "emit" [leaf "xNome" "X"]]) := rfl
    have h2 : (node "infNFe" [node "emit" [leaf "xNome" "X"]]).childTag "ide" =
        none := rfl
    simp only [parse_nfe, h1, h2]

/-- C1 witness: the amended skip clause applied to a concrete parsed
document with no manifest-info element. -/
theorem silent_skip_scope_witness :
    parse_cte (some exPlainDoc) "a.xml" = .ok [] :=
  silent_skip_scope.2.2.1 exPlainDoc "a.xml" rfl

/-! ## Claim C3: one row per referenced invoice key -/

/-- C3: when the CT-e extractor succeeds on a document whose
manifest-info element is present, it returns one record per referenced
invoice key — all records equal up to the invoice-key field — and, when
the document references no key, exactly one record whose key is the
empty string. -/
theorem cte_record_multiplicity (root inf : Xml) (fname : String)
    (recs : List CteRecord)
    (hinf : root.findDesc "infCte" = some inf)
    (h : parse_cte (some root) fname = .ok recs) :
    (cteKeys root ≠ [] →
        recs.length = (cteKeys root).length ∧
        ∃ b : CteRecord, recs = (cteKeys root).map fun k => { b with chaveNF := k }) ∧
    (cteKeys root = [] →
        recs.length = 1 ∧ ∃ b : CteRecord, recs = [{ b with chaveNF := "" }]) := by
  obtain ⟨d, frete, peso, hd, hf, hp, hrecs⟩ :=
    parse_cte_ok_inv root inf fname recs hinf h
  constructor
  · intro hk
    rw [hrecs, cte_chaves, if_neg hk]
    refine ⟨by simp, mkCteRow root inf d frete peso "" fname, ?_⟩
    exact List.map_congr_left fun k _ => (mkCteRow_chave root inf d frete peso "" k fname).symm
  · intro hk
    rw [hrecs, cte_chaves, if_pos hk]
    exact ⟨by simp, mkCteRow root inf d frete peso "" fname, by
      simp [mkCteRow_chave]⟩

/-- C3 witness: the concrete manifest with keys `K1`, `K2` yields exactly
two records agreeing on everything but the key, and the concrete manifest
with no keys yields exactly one empty-key record. -/
theorem cte_record_multiplicity_witness :
    ∃ recs : List CteRecord, parse_cte (some exCte) "a.xml" = .ok recs ∧
      recs.length = 2 ∧
      (∃ b : CteRecord, recs = [{ b with chaveNF := "K1" }, { b with chaveNF := "K2" }]) ∧
      ∃ recs0 : List CteRecord, parse_cte (some exCteNoKeys) "z.xml" = .ok recs0 ∧
        recs0.length = 1 ∧ ∃ b : CteRecord, recs0 = [{ b with chaveNF := "" }] := by
  have hinf : exCte.findDesc "infCte" = some exCteInf := rfl
  have hparse := parse_cte_ok exCte exCteInf "a.xml" ⟨2024, 5, 10⟩ 1500 100
    hinf exCte_date exCte_frete exCte_peso
  have hmul := cte_record_multiplicity exCte exCteInf "a.xml" _ hinf hparse
  have hkeys : cteKeys exCte = ["K1", "K2"] := rfl
  obtain ⟨hlen, b, hb⟩ := hmul.1 (by rw [hkeys]; simp)
  have hinf0 : exCteNoKeys.findDesc "infCte" = some exCteNoKeysInf := rfl
  have hd0 : fromisoformat (exCteNoKeysInf.findtextPathD ["ide", "dhEmi"] "") =
      .ok ⟨2024, 6, 1⟩ := rfl
  have hf0 : cte_frete exCteNoKeysInf = .ok 0 := by
    rw [cte_frete,
      show exCteNoKeysInf.findtextDescPathD ["vTPrest"] "0" = "0" from rfl]
    exact xml_float_eval_int _ ['0'] 0 _ (by decide) (by decide) (by decide)
      (by decide) (by decide) (by norm_num)
  have hp0 : cte_peso exCteNoKeys = .ok 0 := by
    have hvals : ctePesoVals exCteNoKeys = .ok [] := rfl
    simp only [cte_peso, hvals, List.dedup_nil, List.sum_nil]
  have hparse0 := parse_cte_ok exCteNoKeys exCteNoKeysInf "z.xml" ⟨2024, 6, 1⟩ 0 0
    hinf0 hd0 hf0 hp0
  have hmul0 := cte_record_multiplicity exCteNoKeys exCteNoKeysInf "z.xml" _ hinf0 hparse0
  obtain ⟨hlen0, b0, hb0⟩ := hmul0.2 rfl
  refine ⟨_, hparse, ?_, ⟨b, ?_⟩, _, hparse0, hlen0, b0, hb0⟩
  · rw [hlen, hkeys]
    rfl
  · rw [hb, hkeys]
    simp

/-! ## Claim C4: deduplicated weight summation -/

/-- C4: the total cargo weight is the sum of the *distinct* weight
figures found in the document: the extractor sums the deduplicated value
list, i.e. the sum over the finite set of values. -/
theorem cte_weight_dedup_sum (root : Xml) (vs : List ℚ)
    (h : ctePesoVals root = .ok vs) :
    cte_peso root = .ok (∑ x ∈ vs.toFinset, x) := by
  simp only [cte_peso, h]
  rw [dedup_sum_toFinset]

/-- C4 witness: two identical declarations of 100.0 sum to 100, while
declarations of 100.0 and 50.0 sum to 150. -/
theorem cte_weight_dedup_sum_witness :
    cte_peso exCteW1 = .ok 100 ∧ cte_peso exCteW2 = .ok 150 := by
  have h1 : ctePesoVals exCteW1 = .ok [100, 100] := by
    rw [ctePesoVals,
      show Xml.findAllDesc exCteW1 "qCarga" =
        [leaf "qCarga" "100.0", leaf "qCarga" "100.0"] from rfl]
    simp only [exceptMap, show (leaf "qCarga" "100.0").text = some "100.0" from rfl,
      xml_float_100]
  have h2 : ctePesoVals exCteW2 = .ok [100, 50] := by
    rw [ctePesoVals,
      show Xml.findAllDesc exCteW2 "qCarga" =
        [leaf "qCarga" "100.0", leaf "qCarga" "50.0"] from rfl]
    simp only [exceptMap, show (leaf "qCarga" "100.0").text = some "100.0" from rfl,
      show (leaf "qCarga" "50.0").text = some "50.0" from rfl,
      xml_float_100, xml_float_50]
  constructor
  · rw [cte_weight_dedup_sum exCteW1 [100, 100] h1]
    congr 1
    simp
  · rw [cte_weight_dedup_sum exCteW2 [100, 50] h2]
    congr 1
    rw [show ([100, 50] : List ℚ).toFinset = {100, 50} from by simp]
    rw [Finset.sum_insert (by norm_num), Finset.sum_singleton]
    norm_num

/-! ## Claim C7: the value-per-ton guard -/

/-- C7: in every record the CT-e extractor emits, the value-per-ton field
is the formatted quotient `frete / (peso / 1000)` when the total weight
is nonzero — and then the divisor `peso / 1000` is itself nonzero — and
the empty string when the weight is zero. -/
theorem value_per_ton_guard (root inf : Xml) (fname : String)
    (recs : List CteRecord) (frete peso : ℚ)
    (hinf : root.findDesc "infCte" = some inf)
    (hf : cte_frete inf = .ok frete)
    (hp : cte_peso root = .ok peso)
    (h : parse_cte (some root) fname = .ok recs) :
    ∀ r ∈ recs,
      (peso ≠ 0 →
        r.rsTon = br_money_num (frete / (peso / 1000)) ∧ peso / 1000 ≠ 0) ∧
      (peso = 0 → r.rsTon = "") := by
  obtain ⟨d, frete', peso', hd', hf', hp', hrecs⟩ :=
    parse_cte_ok_inv root inf fname recs hinf h
  have hfe : frete' = frete := by
    have := hf.symm.trans hf'
    simpa using this.symm
  have hpe : peso' = peso := by
    have := hp.symm.trans hp'
    simpa using this.symm
  rw [hfe, hpe] at hrecs
  intro r hr
  rw [hrecs] at hr
  obtain ⟨k, hk, rfl⟩ := List.mem_map.mp hr
  constructor
  · intro hpz
    refine ⟨?_, div_ne_zero hpz (by norm_num)⟩
    show cte_rs_ton frete peso = _
    rw [cte_rs_ton, if_neg hpz]
  · intro hpz
    show cte_rs_ton frete peso = ""
    rw [cte_rs_ton, if_pos hpz]

/-- C7 witness: the concrete manifest (freight 1500, weight 100) has a
nonzero weight, so every emitted record carries the formatted quotient
and the divisor is nonzero. -/
theorem value_per_ton_guard_witness :
    ∃ recs : List CteRecord, parse_cte (some exCte) "a.xml" = .ok recs ∧
      recs ≠ [] ∧
      ∀ r ∈ recs, r.rsTon = br_money_num (1500 / (100 / 1000)) ∧
        ((100 : ℚ) / 1000 ≠ 0) := by
  have hinf : exCte.findDesc "infCte" = some exCteInf := rfl
  have hparse := parse_cte_ok exCte exCteInf "a.xml" ⟨2024, 5, 10⟩ 1500 100
    hinf exCte_date exCte_frete exCte_peso
  refine ⟨_, hparse, ?_, ?_⟩
  · rw [show cte_chaves exCte = ["K1", "K2"] from rfl]
    simp
  · intro r hr
    have := value_per_ton_guard exCte exCteInf "a.xml" _ 1500 100
      hinf exCte_frete exCte_peso hparse r hr
    exact ⟨(this.1 (by norm_num)).1, (this.1 (by norm_num)).2⟩

/-! ## Claim C6: the archive loader -/

/-- C6: a pair appears in the loader's output exactly when it is either a
plain upload named `*.xml` passed through unchanged, or an XML-named
member of a non-XML (archive) upload under its in-archive name — non-XML
members are dropped.  In particular, an archive with two XML members and
one non-XML member expands to exactly those two pairs, and a plain XML
upload passes through as a single pair. -/
theorem load_files_expansion :
    (∀ (ups : List Upload) (n : String) (b : Bytes),
        (n, b) ∈ load_files ups ↔
          ∃ u ∈ ups,
            (endsWithXml u.name = true ∧ n = u.name ∧ b = u.content) ∨
            (endsWithXml u.name = false ∧ (n, b) ∈ u.asZip ∧
              endsWithXml n = true)) ∧
    load_files [exZipUpload] = [("a.xml", [1]), ("b.XML", [2])] ∧
    load_files [exXmlUpload] = [("doc.xml", [9])] := by
  refine ⟨?_, by decide, by decide⟩
  intro ups n b
  rw [load_files, List.mem_flatMap]
  constructor
  · rintro ⟨u, hu, hmem⟩
    refine ⟨u, hu, ?_⟩
    by_cases hx : endsWithXml u.name = true
    · rw [if_pos hx] at hmem
      have hpair : (n, b) = (u.name, u.content) := by simpa using hmem
      exact Or.inl ⟨hx, congrArg Prod.fst hpair, congrArg Prod.snd hpair⟩
    · rw [if_neg hx] at hmem
      have hf := List.mem_filter.mp hmem
      exact Or.inr ⟨by simpa using hx, hf.1, by simpa using hf.2⟩
  · rintro ⟨u, hu, hcase⟩
    refine ⟨u, hu, ?_⟩
    rcases hcase with ⟨hx, rfl, rfl⟩ | ⟨hx, hmem, hn⟩
    · rw [if_pos hx]
      simp
    · rw [if_neg (by simp [hx])]
      exact List.mem_filter.mpr ⟨hmem, by simpa using hn⟩

/-! ## Claim C5: the inner join -/

/-- C5: the merged table contains exactly one row per pair of a manifest
row and an invoice row whose invoice-key cells are equal (a present key
compared by exact string equality), built by suffixing the colliding
column names of each side; joining the concrete tables with keys
`{A, B}` and `{B, C}` yields exactly one merged row, keyed `"B"`, with
the colliding `Data` columns renamed `Data_CTE` / `Data_NFE`. -/
theorem merge_inner_join :
    (∀ (t u : Table) (key sL sR : String) (r : Row),
        r ∈ (pd_merge_inner t u key sL sR).rows ↔
          ∃ lr ∈ t.rows, ∃ rr ∈ u.rows,
            (rowGet lr key).isSome = true ∧ rowGet rr key = rowGet lr key ∧
            r = mergedRow key sL sR t.cols u.cols lr rr) ∧
    (pd_merge_inner exCteTable exNfeTable "Chave NF" "_CTE" "_NFE").rows =
      [[("Chave NF", "B"), ("Data_CTE", "02/01/2024"),
        ("Data_NFE", "03/01/2024")]] ∧
    rowGet [("Chave NF", "B"), ("Data_CTE", "02/01/2024"),
      ("Data_NFE", "03/01/2024")] "Chave NF" = some "B" := by
  refine ⟨?_, by decide, by decide⟩
  intro t u key sL sR r
  simp only [pd_merge_inner]
  rw [List.mem_flatMap]
  constructor
  · rintro ⟨lr, hlr, hmem⟩
    rw [List.mem_map] at hmem
    obtain ⟨rr, hrr, rfl⟩ := hmem
    have hf := List.mem_filter.mp hrr
    have hcond : (rowGet lr key).isSome = true ∧ rowGet rr key = rowGet lr key := by
      simpa using hf.2
    exact ⟨lr, hlr, rr, hf.1, hcond.1, hcond.2, rfl⟩
  · rintro ⟨lr, hlr, rr, hrr, hsome, hkey, rfl⟩
    refine ⟨lr, hlr, ?_⟩
    rw [List.mem_map]
    exact ⟨rr, List.mem_filter.mpr ⟨hrr, by simp [hsome, hkey]⟩, rfl⟩

/-- C6 witness: the characterization applied to the concrete archive
upload, placing its first XML member in the output. -/
theorem load_files_expansion_witness :
    ("a.xml", ([1] : Bytes)) ∈ load_files [exZipUpload] :=
  (load_files_expansion.1 [exZipUpload] "a.xml" [1]).mpr
    ⟨exZipUpload, by simp, Or.inr ⟨by decide, by decide, by decide⟩⟩

/-- C5 witness: the characterization applied to the concrete tables,
producing the single merged row keyed `"B"`. -/
theorem merge_inner_join_witness :
    [("Chave NF", "B"), ("Data_CTE", "02/01/2024"), ("Data_NFE", "03/01/2024")] ∈
      (pd_merge_inner exCteTable exNfeTable "Chave NF" "_CTE" "_NFE").rows :=
  (merge_inner_join.1 exCteTable exNfeTable "Chave NF" "_CTE" "_NFE" _).mpr
    ⟨[("Chave NF", "B"), ("Data", "02/01/2024")], by simp [exCteTable],
     [("Chave NF", "B"), ("Data", "03/01/2024")], by simp [exNfeTable],
     by decide, by decide, by decide⟩

end LeitorXml
